import Mathlib

/-!
Shallow embedding of the load-generation harness in `src/ahoj.py`.

The program keeps a module-level list `processes` of spawned worker handles and a
module-level `terminate_flag` (a `multiprocessing.Event`).  CPU workers either
busy-spin unconditionally (`cpu_worker_busy`) or run a duty-cycle loop
(`cpu_worker_throttle`); the memory worker allocates
`['x' * 1024 * 1024] * int(size_in_mb)` and idles; `terminate_all` sets the flag,
force-terminates every live handle and joins each handle with a 1 second timeout;
`start_ramp` doubles the wave size from 1 up to a ceiling, appending every spawned
handle to `processes` and sleeping between waves in 0.1 s slices.

Modelling conventions: wall-clock quantities are idealized over `ℚ` (a busy spin of
`busy_time` seconds takes exactly `busy_time`); process liveness, whether a process
creation succeeds, and whether a terminated process exits within the reap timeout
are explicit booleans supplied by an environment; loops are fuel-indexed so every
definition is executable; exceptions are modelled with `Except` / explicit outcome
types.
-/

/-- Kind of worker process spawned by the ramp: CPU burner or memory holder. -/
inductive WKind where
  | cpu
  | mem
deriving DecidableEq

/-- One tracked worker handle (a `multiprocessing.Process` object).
`alive` models what `p.is_alive()` currently returns; `termRequested` records that
`p.terminate()` has been called on the handle; `exitsWithinTimeout` is an
environment fact: under the teardown stimulus (stop flag set, forced termination
if alive) this process is fully exited by the end of its `p.join(timeout=1)`. -/
structure Proc where
  kind : WKind
  alive : Bool
  termRequested : Bool
  exitsWithinTimeout : Bool
deriving DecidableEq

/-- A freshly spawned handle: `p.start()` succeeded, so the process is alive and
no termination has been requested yet (lines 51-62 of the source). -/
def mkProc (k : WKind) (exits : Bool) : Proc :=
  ⟨k, true, false, exits⟩

/-- Shared module-level state: `terminate_flag` and the `processes` list
(lines 19-20 of the source). -/
structure Sys where
  flag : Bool
  procs : List Proc
deriving DecidableEq

/-- The liveness probe `any(p.is_alive() for p in processes)` used by the menu
quit path (line 225 of the source). -/
def anyAlive (s : Sys) : Bool :=
  s.procs.any (·.alive)

/-- Observable side effects of `terminate_all`: setting the stop flag, sending a
forced termination request to the handle at index `i`, and waiting on (joining)
the handle at index `i`. -/
inductive TermEvent where
  | flagSet
  | termReq (i : Nat)
  | joinReq (i : Nat)
deriving DecidableEq

/-- First pass of `terminate_all` over one handle (lines 66-71):
`if p.is_alive(): p.terminate()`.  A handle that is not alive is left untouched. -/
def termPass (p : Proc) : Proc :=
  if p.alive then { p with termRequested := true } else p

/-- Second pass of `terminate_all` over one handle (lines 72-76):
`p.join(timeout=1)`.  A process that exits within the reap timeout is observed
dead afterwards; a process that does not stays alive. -/
def joinPass (p : Proc) : Proc :=
  { p with alive := p.alive && !p.exitsWithinTimeout }

/-- The termination-request event the first pass emits for the handle at index
`i`, if any: a request is sent only when the liveness check returns true. -/
def termReqEvent (l : List Proc) (i : Nat) : Option TermEvent :=
  match l[i]? with
  | some p => if p.alive then some (TermEvent.termReq i) else none
  | none => none

/-- `terminate_all` (lines 64-76), instrumented with the list of side effects it
performs: it sets `terminate_flag`, then for every tracked handle requests forced
termination if and only if the handle is alive (per-handle exceptions are
swallowed by the `try`/`except` in the source, so the pass is total), then joins
every handle with the 1 second reap timeout.  The `processes` list itself is
never modified. -/
def terminate_all_ev (s : Sys) : Sys × List TermEvent :=
  (⟨true, (s.procs.map termPass).map joinPass⟩,
    TermEvent.flagSet ::
      ((List.range s.procs.length).filterMap (termReqEvent s.procs) ++
        (List.range s.procs.length).map TermEvent.joinReq))

/-- State effect of `terminate_all` (lines 64-76). -/
def terminate_all (s : Sys) : Sys :=
  (terminate_all_ev s).1

/-- Environment of one ramp run: whether the `j`-th process creation in program
order succeeds (`p.start()` raising on e.g. OS resource exhaustion), whether the
process created by attempt `j` would exit within the reap timeout, and the value
of `terminate_flag.is_set()` observed by the loop condition at the top of wave
`w`. -/
structure RampEnv where
  spawnOk : Nat → Bool
  exitsOk : Nat → Bool
  flagAtWave : Nat → Bool

/-- How a `start_ramp` run ends: the loop condition failed on `count > pc_amount`
(the ramp completed), the loop condition observed the stop flag (stopped), an
exception escaped the loop (only `KeyboardInterrupt` is caught in the source, so
a spawn failure propagates out of `start_ramp`), or the fuel ran out (unreachable
from `start_ramp`, which supplies ample fuel). -/
inductive Outcome where
  | completed
  | stopped
  | raised
  | fuelOut
deriving DecidableEq

/-- Result of a ramp run: how it ended, the sequence of wave sizes the loop
initiated, and the final `processes` registry. -/
structure RampResult where
  outcome : Outcome
  waves : List Nat
  reg : List Proc
deriving DecidableEq

/-- One iteration of the wave spawn loop (lines 160-164): spawn one CPU worker
(attempt `a`) and append it, then one memory worker (attempt `a + 1`) and append
it.  If `p.start()` raises, the exception propagates (`Except.error`) and the
handles appended so far remain in the registry. -/
def spawnPair (env : RampEnv) (a : Nat) (reg : List Proc) :
    Except (List Proc) (List Proc) :=
  if env.spawnOk a then
    if env.spawnOk (a + 1) then
      Except.ok (reg ++ [mkProc WKind.cpu (env.exitsOk a)] ++
        [mkProc WKind.mem (env.exitsOk (a + 1))])
    else Except.error (reg ++ [mkProc WKind.cpu (env.exitsOk a)])
  else Except.error reg

/-- The full spawn loop of one wave, `for i in range(count)` (lines 160-164);
returns the extended registry and the next attempt index, or propagates the
first spawn failure. -/
def spawnWave (env : RampEnv) : Nat → Nat → List Proc → Except (List Proc) (List Proc × Nat)
  | 0, a, reg => Except.ok (reg, a)
  | i + 1, a, reg =>
    match spawnPair env a reg with
    | Except.ok reg1 => spawnWave env i (a + 2) reg1
    | Except.error reg1 => Except.error reg1

/-- The ramp loop of `start_ramp` (lines 151-173), fuel-indexed.  Arguments after
the fuel: current `count`, wave index `w` (for the flag observation schedule),
next spawn-attempt index `a`, accumulated list of wave sizes, accumulated
registry.  Faithful to the source: the loop condition checks `count <= pc_amount`
first and `terminate_flag.is_set()` second; in dry-run mode the spawn loop is
skipped entirely; after the wave, `count *= 2`.  The between-wave wait only
consumes time, so it is modelled separately (`start_ramp_wait`); its effect on
the loop is already captured by the per-wave flag observation. -/
def rampAux (env : RampEnv) (pc : Nat) (dry : Bool) :
    Nat → Nat → Nat → Nat → List Nat → List Proc → RampResult
  | 0, _, _, _, wacc, reg => ⟨Outcome.fuelOut, wacc, reg⟩
  | fuel + 1, count, w, a, wacc, reg =>
    if count ≤ pc then
      if env.flagAtWave w then ⟨Outcome.stopped, wacc, reg⟩
      else if dry then
        rampAux env pc dry fuel (count * 2) (w + 1) a (wacc ++ [count]) reg
      else
        match spawnWave env count a reg with
        | Except.ok (reg1, a1) =>
          rampAux env pc dry fuel (count * 2) (w + 1) a1 (wacc ++ [count]) reg1
        | Except.error reg1 => ⟨Outcome.raised, wacc ++ [count], reg1⟩
    else ⟨Outcome.completed, wacc, reg⟩

/-- `start_ramp` (lines 143-180): the ramp loop started at `count = 1` with an
empty registry.  Fuel `pc + 1` is ample: `count` at least doubles each wave, so
the loop runs at most `log2 pc + 1` times. -/
def start_ramp (env : RampEnv) (pc : Nat) (dry : Bool) : RampResult :=
  rampAux env pc dry (pc + 1) 1 0 0 [] []

/-- The operations of the program that touch the shared state: the two spawn
helpers (lines 51-62), `terminate_all` (lines 64-76; the signal handler at lines
78-82 goes through the same code path), and `start_ramp` (lines 143-180), which
appends every handle it spawns to `processes` and only ever reads the flag.
There is no `terminate_flag.clear()` anywhere in the source. -/
inductive SysOp where
  | spawnCpu (useBusy : Bool) (loadPercent : Nat) (exits : Bool)
  | spawnMem (sizeMB : Nat) (exits : Bool)
  | terminateAll
  | startRamp (env : RampEnv) (pc : Nat) (dry : Bool)

/-- Effect of each operation on the shared state. -/
def applyOp : SysOp → Sys → Sys
  | SysOp.spawnCpu _ _ e, s => ⟨s.flag, s.procs ++ [mkProc WKind.cpu e]⟩
  | SysOp.spawnMem _ e, s => ⟨s.flag, s.procs ++ [mkProc WKind.mem e]⟩
  | SysOp.terminateAll, s => terminate_all s
  | SysOp.startRamp env pc dry, s => ⟨s.flag, s.procs ++ (start_ramp env pc dry).reg⟩

/-- The between-wave wait loop of `start_ramp` (lines 166-170):
`while slept < speed and not terminate_flag.is_set(): time.sleep(0.1); slept += 0.1`.
`flagAt k` is the value of `terminate_flag.is_set()` at the `k`-th check of the
loop condition; the function returns the number of 0.1 s sleeps performed. -/
def start_ramp_wait (speed : ℚ) (flagAt : Nat → Bool) : Nat → Nat → ℚ → Nat
  | 0, k, _ => k
  | fuel + 1, k, slept =>
    if slept < speed ∧ flagAt k = false then
      start_ramp_wait speed flagAt fuel (k + 1) (slept + 1 / 10)
    else k

/-- Which worker function a CPU-worker process runs. -/
inductive CpuMode where
  | busy
  | throttle (loadPercent : Nat)
deriving DecidableEq

/-- `DEFAULT_USE_BUSY_LOOP = True` (line 16 of the source); `main_menu` also uses
`use_busy = DEFAULT_USE_BUSY_LOOP` together with `load_percent = 98`. -/
def DEFAULT_USE_BUSY_LOOP : Bool := true

/-- Target selection in `spawn_cpu_worker` (lines 51-57):
`if use_busy or load_percent == 100:` run `cpu_worker_busy`, else run
`cpu_worker_throttle(load_percent)`. -/
def spawn_cpu_worker_target (use_busy : Bool) (load_percent : Nat) : CpuMode :=
  if use_busy || load_percent == 100 then CpuMode.busy
  else CpuMode.throttle load_percent

/-- One duty-cycle slice of the throttled CPU worker: seconds spent busy-spinning
followed by seconds spent sleeping. -/
structure ThrottleSlice where
  busyTime : ℚ
  sleepTime : ℚ
deriving DecidableEq

/-- Trace of `cpu_worker_throttle` (lines 25-34): `slice_time = 0.1`,
`busy_time = slice_time * load_percent / 100.0`; the loop checks
`terminate_flag.is_set()` once per iteration (`flagAt k` at the `k`-th check),
busy-spins for `busy_time`, then sleeps the remainder of the slice if positive.
One list entry per executed slice; idealized time over `ℚ`. -/
def cpu_worker_throttle (load_percent : ℚ) (flagAt : Nat → Bool) :
    Nat → Nat → List ThrottleSlice
  | 0, _ => []
  | fuel + 1, k =>
    if flagAt k then []
    else
      ⟨1 / 10 * load_percent / 100,
        if 0 < 1 / 10 - 1 / 10 * load_percent / 100 then
          1 / 10 - 1 / 10 * load_percent / 100
        else 0⟩ :: cpu_worker_throttle load_percent flagAt fuel (k + 1)

/-- A CPython heap object: a string with its character count, or a list holding
reference slots (addresses into the heap). -/
inductive PyObj where
  | pystr (len : Nat)
  | pylist (refs : List Nat)
deriving DecidableEq

/-- Heap produced by evaluating `data = ['x' * 1024 * 1024] * int(size_in_mb)`
(line 42 of the source).  The inner expression builds ONE string object of
`1024 * 1024` characters (address 0); Python sequence repetition then builds a
list of `size_in_mb` references to that same object — it does not copy the
string.  So the heap holds exactly one string and one list of aliased
references. -/
def memory_worker_data (size_in_mb : Nat) : List PyObj :=
  [PyObj.pystr (1024 * 1024), PyObj.pylist (List.replicate size_in_mb 0)]

/-- Bytes owned by one object: one byte per payload character for a string, one
8-byte reference slot per element for a list (element payloads are counted once,
at the object they point to). -/
def pyObjBytes : PyObj → Nat
  | PyObj.pystr n => n
  | PyObj.pylist refs => 8 * refs.length

/-- Total unique bytes held by a heap. -/
def heapBytes (h : List PyObj) : Nat :=
  (h.map pyObjBytes).sum

/-- Modelled from the spec: the held allocation the spec describes for the
memory variant, "sized to approximate `sizeMB` megabytes".  Used only to compare
the source's actual allocation against the spec's words. -/
def spec_held_bytes (sizeMB : Nat) : Nat :=
  sizeMB * 1024 * 1024

/-- Python exception relevant to the memory worker. -/
inductive PyExc where
  | memoryError
deriving DecidableEq

/-- Outcome of running a worker function: a normal return (with the number of
idle sleeps performed) or an uncaught exception. -/
inductive PyOutcome where
  | returned (sleeps : Nat)
  | raisedExc (e : PyExc)
deriving DecidableEq

/-- The idle loop of `memory_worker` (lines 43-44):
`while not terminate_flag.is_set(): time.sleep(0.5)` — the stop flag is
re-checked before every 0.5 s sleep; returns the number of sleeps. -/
def memory_worker_loop (flagAt : Nat → Bool) : Nat → Nat → Nat
  | 0, k => k
  | fuel + 1, k => if flagAt k then k else memory_worker_loop flagAt fuel (k + 1)

/-- Body of `memory_worker` without its `except` clause: if the allocation at
line 42 fails, `MemoryError` is raised before the idle loop starts; otherwise
the worker idles until the stop flag is observed. -/
def memory_worker_body (allocOk : Bool) (flagAt : Nat → Bool) (fuel : Nat) : PyOutcome :=
  if allocOk then PyOutcome.returned (memory_worker_loop flagAt fuel 0)
  else PyOutcome.raisedExc PyExc.memoryError

/-- `memory_worker` (lines 40-46): the body wrapped in
`try: ... except MemoryError: return` — an allocation failure is swallowed and
the worker function returns normally, having performed no idle sleeps. -/
def memory_worker (allocOk : Bool) (flagAt : Nat → Bool) (fuel : Nat) : PyOutcome :=
  match memory_worker_body allocOk flagAt fuel with
  | PyOutcome.raisedExc PyExc.memoryError => PyOutcome.returned 0
  | r => r

/-- The registry a `spawnPair` result carries, whether it succeeded or failed. -/
def exceptReg : Except (List Proc) (List Proc) → List Proc
  | Except.ok r => r
  | Except.error r => r

/-- The registry a `spawnWave` result carries, whether it succeeded or failed. -/
def waveReg : Except (List Proc) (List Proc × Nat) → List Proc
  | Except.ok (r, _) => r
  | Except.error r => r

/-- Benign environment: every process creation succeeds, every worker exits
within the reap timeout, the stop flag is never observed set. -/
def envGoodC2 : RampEnv :=
  ⟨fun _ => true, fun _ => true, fun _ => false⟩

/-- Environment whose fifth process creation (attempt index 4, the CPU worker of
the second pair of wave 2) fails; the stop flag is never observed set. -/
def envFailC4 : RampEnv :=
  ⟨fun a => !(a == 4), fun _ => true, fun _ => false⟩

/-- Environment in which the stop flag is already set at every observation. -/
def envStopC10 : RampEnv :=
  ⟨fun _ => true, fun _ => true, fun _ => true⟩

/-- One handle's round trip through both passes of `terminate_all` is idempotent:
a second terminate-and-join changes nothing. -/
theorem tj_idem (p : Proc) :
    joinPass (termPass (joinPass (termPass p))) = joinPass (termPass p) := by
  rcases p with ⟨k, a, t, e⟩
  cases a <;> cases t <;> cases e <;> rfl

/-- Idempotence of the two passes lifted to the whole registry. -/
theorem termJoin_map_idem (l : List Proc) :
    (((l.map termPass).map joinPass).map termPass).map joinPass
      = (l.map termPass).map joinPass := by
  induction l with
  | nil => rfl
  | cons p t ih =>
    simp only [List.map_cons, List.cons.injEq]
    exact ⟨tj_idem p, ih⟩

/-- A termination request is only ever emitted for a handle whose liveness check
returned true at the time of the call. -/
theorem termReq_mem_alive (s : Sys) (i : Nat)
    (h : TermEvent.termReq i ∈ (terminate_all_ev s).2) :
    ∃ p, s.procs[i]? = some p ∧ p.alive = true := by
  simp only [terminate_all_ev, List.mem_cons, List.mem_append, List.mem_filterMap,
    List.mem_map, List.mem_range] at h
  rcases h with h | ⟨j, hj, hfj⟩ | ⟨j, hj, hfj⟩
  · exact absurd h (by simp)
  · unfold termReqEvent at hfj
    rcases hget : s.procs[j]? with _ | p <;> rw [hget] at hfj <;> simp at hfj
    obtain ⟨hp, rfl⟩ := hfj
    exact ⟨p, hget, hp⟩
  · exact absurd hfj (by simp)

/-- Claim C3 (confirmed): `terminate_all` is idempotent — calling it a second
time in succession leaves the state unchanged (and raises no error: both passes
are total, per-handle exceptions being swallowed in the source); a second call
issues a termination request only for handles whose liveness check returns true
at that moment, so no already-reaped handle receives a duplicate request; and on
an empty (or already torn down) registry the call is a no-op apart from the
idempotent flag set. -/
theorem terminate_all_idempotent (s : Sys) :
    terminate_all (terminate_all s) = terminate_all s ∧
    (∀ i, TermEvent.termReq i ∈ (terminate_all_ev (terminate_all s)).2 →
      ∃ p, (terminate_all s).procs[i]? = some p ∧ p.alive = true) ∧
    terminate_all ⟨false, []⟩ = ⟨true, []⟩ ∧
    terminate_all ⟨true, []⟩ = ⟨true, []⟩ := by
  refine ⟨?_, fun i h => termReq_mem_alive _ i h, rfl, rfl⟩
  show Sys.mk true _ = Sys.mk true _
  rw [Sys.mk.injEq]
  exact ⟨rfl, termJoin_map_idem s.procs⟩

/-- Claim C3 witness: idempotence evaluated on a one-handle registry, and the
second call on a registry holding a stubborn (never-exiting) worker still only
targets a handle that is alive. -/
theorem terminate_all_idempotent_w :
    terminate_all (terminate_all ⟨false, [⟨WKind.cpu, true, false, true⟩]⟩)
      = terminate_all ⟨false, [⟨WKind.cpu, true, false, true⟩]⟩ ∧
    ∃ p, (terminate_all ⟨false, [⟨WKind.cpu, true, false, false⟩]⟩).procs[0]? = some p ∧
      p.alive = true := by
  constructor
  · exact (terminate_all_idempotent ⟨false, [⟨WKind.cpu, true, false, true⟩]⟩).1
  · exact (terminate_all_idempotent ⟨false, [⟨WKind.cpu, true, false, false⟩]⟩).2.1 0
      (by decide)

/-- Claim C1 (corrected): after `terminate_all` returns, every handle that was
alive at the time of the call has been sent a forced termination request, every
tracked handle (alive or not) has been waited on with the 1 s reap timeout, and
the liveness probe reports false for every handle that exited within the
timeout.  (The claim's stronger reading — that EVERY tracked handle is sent a
termination request — fails: see `terminate_all_skips_dead_handle`.) -/
theorem terminate_all_requests_and_reaps (s : Sys) :
    (∀ i p, s.procs[i]? = some p → p.alive = true →
      TermEvent.termReq i ∈ (terminate_all_ev s).2) ∧
    (∀ i, i < s.procs.length → TermEvent.joinReq i ∈ (terminate_all_ev s).2) ∧
    (∀ p ∈ (terminate_all s).procs, p.exitsWithinTimeout = true → p.alive = false) ∧
    anyAlive ⟨true, (terminate_all s).procs.filter (·.exitsWithinTimeout)⟩ = false := by
  have hdead : ∀ p ∈ (terminate_all s).procs, p.exitsWithinTimeout = true →
      p.alive = false := by
    intro p hp he
    simp only [terminate_all, terminate_all_ev, List.mem_map] at hp
    obtain ⟨r, ⟨q, hq, rfl⟩, rfl⟩ := hp
    rcases q with ⟨k, al, t, e⟩
    cases al <;> cases e <;> simp_all [termPass, joinPass]
  refine ⟨?_, ?_, hdead, ?_⟩
  · intro i p hp halive
    have hi : i < s.procs.length := by
      by_contra hlt
      push_neg at hlt
      rw [List.getElem?_eq_none hlt] at hp
      cases hp
    simp only [terminate_all_ev, List.mem_cons, List.mem_append]
    refine Or.inr (Or.inl ?_)
    rw [List.mem_filterMap]
    exact ⟨i, List.mem_range.mpr hi, by simp [termReqEvent, hp, halive]⟩
  · intro i hi
    simp only [terminate_all_ev, List.mem_cons, List.mem_append]
    exact Or.inr (Or.inr (List.mem_map.mpr ⟨i, List.mem_range.mpr hi, rfl⟩))
  · rw [anyAlive, List.any_eq_false]
    intro p hp
    rw [List.mem_filter] at hp
    have := hdead p hp.1 (by simpa using hp.2)
    simp [this]

/-- Claim C1 witness: on a registry holding one live, promptly exiting worker,
the call emits the termination request and the join, and the probe restricted to
the handles that exited within the timeout reports false. -/
theorem terminate_all_requests_and_reaps_w :
    TermEvent.termReq 0 ∈ (terminate_all_ev ⟨false, [⟨WKind.cpu, true, false, true⟩]⟩).2 ∧
    TermEvent.joinReq 0 ∈ (terminate_all_ev ⟨false, [⟨WKind.cpu, true, false, true⟩]⟩).2 ∧
    anyAlive ⟨true, (terminate_all ⟨false, [⟨WKind.cpu, true, false, true⟩]⟩).procs.filter
      (·.exitsWithinTimeout)⟩ = false := by
  have h := terminate_all_requests_and_reaps ⟨false, [⟨WKind.cpu, true, false, true⟩]⟩
  exact ⟨h.1 0 ⟨WKind.cpu, true, false, true⟩ rfl rfl, h.2.1 0 (by decide), h.2.2.2⟩

/-- Claim C1 counterexample: a registry whose single tracked handle is already
dead at the time of the call (e.g. a memory worker that exited on allocation
failure, or a handle left over from an earlier teardown — `terminate_all` never
removes handles).  The claim as stated says every handle in the tracked set "has
been sent a forced termination request", but `terminate_all` guards the request
with `if p.is_alive()`, so no termination request is emitted for this handle. -/
theorem terminate_all_skips_dead_handle :
    (Sys.mk false [⟨WKind.cpu, false, false, true⟩]).procs.length = 1 ∧
    TermEvent.termReq 0 ∉
      (terminate_all_ev ⟨false, [⟨WKind.cpu, false, false, true⟩]⟩).2 := by
  decide

/-- One spawn-loop iteration only appends to the registry, whether it succeeds
or fails part-way, and every handle it appends is alive. -/
theorem spawnPair_reg (env : RampEnv) (a : Nat) (reg : List Proc) :
    ∃ t, exceptReg (spawnPair env a reg) = reg ++ t ∧ ∀ p ∈ t, p.alive = true := by
  by_cases h1 : env.spawnOk a = true
  · by_cases h2 : env.spawnOk (a + 1) = true
    · refine ⟨[mkProc WKind.cpu (env.exitsOk a), mkProc WKind.mem (env.exitsOk (a + 1))],
        by simp [spawnPair, h1, h2, exceptReg], ?_⟩
      intro p hp
      simp only [List.mem_cons, List.not_mem_nil, or_false] at hp
      rcases hp with rfl | rfl <;> rfl
    · refine ⟨[mkProc WKind.cpu (env.exitsOk a)],
        by simp [spawnPair, h1, h2, exceptReg], ?_⟩
      intro p hp
      simp only [List.mem_cons, List.not_mem_nil, or_false] at hp
      rcases hp with rfl
      rfl
  · exact ⟨[], by simp [spawnPair, h1, exceptReg], by simp⟩

/-- A whole wave's spawn loop only appends to the registry, whether it succeeds
or propagates a spawn failure, and every handle it appends is alive. -/
theorem spawnWave_reg (env : RampEnv) :
    ∀ n a reg, ∃ t, waveReg (spawnWave env n a reg) = reg ++ t ∧
      ∀ p ∈ t, p.alive = true := by
  intro n
  induction n with
  | zero => exact fun a reg => ⟨[], by simp [spawnWave, waveReg], by simp⟩
  | succ m ih =>
    intro a reg
    obtain ⟨t1, ht1, ha1⟩ := spawnPair_reg env a reg
    rcases hsp : spawnPair env a reg with r | r <;> rw [hsp] at ht1 <;>
      simp only [exceptReg] at ht1
    · exact ⟨t1, by simp [spawnWave, hsp, waveReg, ht1], ha1⟩
    · obtain ⟨t2, ht2, ha2⟩ := ih (a + 2) r
      refine ⟨t1 ++ t2, ?_, ?_⟩
      · have hw : spawnWave env (m + 1) a reg = spawnWave env m (a + 2) r := by
          simp [spawnWave, hsp]
        rw [hw, ht2, ht1, List.append_assoc]
      · intro p hp
        rcases List.mem_append.1 hp with h | h
        · exact ha1 p h
        · exact ha2 p h

/-- The ramp loop only appends to the registry (no branch ever removes a spawned
handle), and every handle it appends is alive. -/
theorem rampAux_reg (env : RampEnv) (pc : Nat) (dry : Bool) :
    ∀ fuel count w a wacc reg, ∃ t,
      (rampAux env pc dry fuel count w a wacc reg).reg = reg ++ t ∧
      ∀ p ∈ t, p.alive = true := by
  intro fuel
  induction fuel with
  | zero => exact fun count w a wacc reg => ⟨[], by simp [rampAux], by simp⟩
  | succ f ih =>
    intro count w a wacc reg
    by_cases h1 : count ≤ pc
    · by_cases h2 : env.flagAtWave w = true
      · exact ⟨[], by simp [rampAux, h1, h2], by simp⟩
      · by_cases h3 : dry = true
        · subst h3
          obtain ⟨t, ht, ha⟩ := ih (count * 2) (w + 1) a (wacc ++ [count]) reg
          exact ⟨t, by simp [rampAux, h1, h2, ht], ha⟩
        · rw [Bool.not_eq_true] at h3
          subst h3
          obtain ⟨t1, ht1, ha1⟩ := spawnWave_reg env count a reg
          rcases hsw : spawnWave env count a reg with r | pr <;> rw [hsw] at ht1 <;>
            simp only [waveReg] at ht1
          · exact ⟨t1, by simp [rampAux, h1, h2, hsw, ht1], ha1⟩
          · obtain ⟨r, a1⟩ := pr
            simp only [waveReg] at ht1
            obtain ⟨t2, ht2, ha2⟩ := ih (count * 2) (w + 1) a1 (wacc ++ [count]) r
            refine ⟨t1 ++ t2, ?_, ?_⟩
            · have hstep : (rampAux env pc false (f + 1) count w a wacc reg).reg
                  = (rampAux env pc false f (count * 2) (w + 1) a1 (wacc ++ [count]) r).reg := by
                simp [rampAux, h1, h2, hsw]
              rw [hstep, ht2, ht1, List.append_assoc]
            · intro p hp
              rcases List.mem_append.1 hp with h | h
              · exact ha1 p h
              · exact ha2 p h
    · exact ⟨[], by simp [rampAux, h1], by simp⟩

/-- Claim C9 (corrected): every handle returned by a spawn call is appended to
the tracked list and is never removed — the spawn helpers append one handle, the
ramp loop only ever extends the registry, and `terminate_all` leaves the tracked
list in place element-for-element (same length, same kind and reap behaviour at
every index; only the liveness / termination-requested flags change).  There is
no bulk removal or clear anywhere: the claim's assertion that `terminate_all`
removes the terminated handles fails, see `terminate_all_keeps_handles`. -/
theorem registry_append_only :
    (∀ s ub lp e, (applyOp (SysOp.spawnCpu ub lp e) s).procs
      = s.procs ++ [mkProc WKind.cpu e]) ∧
    (∀ s mb e, (applyOp (SysOp.spawnMem mb e) s).procs
      = s.procs ++ [mkProc WKind.mem e]) ∧
    (∀ env pc dry fuel count w a wacc reg, ∃ t,
      (rampAux env pc dry fuel count w a wacc reg).reg = reg ++ t) ∧
    (∀ s : Sys, (terminate_all s).procs.length = s.procs.length) ∧
    (∀ (s : Sys) (i : Nat) (p : Proc), s.procs[i]? = some p →
      ∃ q : Proc, (terminate_all s).procs[i]? = some q ∧
        q.kind = p.kind ∧ q.exitsWithinTimeout = p.exitsWithinTimeout) := by
  refine ⟨fun s ub lp e => rfl, fun s mb e => rfl, ?_, ?_, ?_⟩
  · intro env pc dry fuel count w a wacc reg
    obtain ⟨t, ht, _⟩ := rampAux_reg env pc dry fuel count w a wacc reg
    exact ⟨t, ht⟩
  · intro s
    simp [terminate_all, terminate_all_ev]
  · intro s i p hp
    refine ⟨joinPass (termPass p), ?_, ?_, ?_⟩
    · simp only [terminate_all, terminate_all_ev]
      rw [List.getElem?_map, List.getElem?_map, hp]
      rfl
    · rcases p with ⟨k, al, t, e⟩
      cases al <;> rfl
    · rcases p with ⟨k, al, t, e⟩
      cases al <;> rfl

/-- Claim C9 witness: the handle at index 0 survives `terminate_all` in place,
with its kind and reap behaviour intact. -/
theorem registry_append_only_w :
    ∃ q, (terminate_all ⟨false, [⟨WKind.mem, true, false, false⟩]⟩).procs[0]? = some q ∧
      q.kind = WKind.mem ∧ q.exitsWithinTimeout = false :=
  registry_append_only.2.2.2.2 ⟨false, [⟨WKind.mem, true, false, false⟩]⟩ 0
    ⟨WKind.mem, true, false, false⟩ rfl

/-- Claim C9 counterexample: `terminate_all` performs no removal.  On a registry
holding one live, promptly exiting worker, the call terminates and reaps the
worker but the handle is still tracked afterwards (now dead and marked
terminated), so "after terminateAll returns the terminated handles are no longer
tracked" is false. -/
theorem terminate_all_keeps_handles :
    (terminate_all ⟨false, [⟨WKind.cpu, true, false, true⟩]⟩).procs
      = [⟨WKind.cpu, false, true, true⟩] ∧
    (terminate_all ⟨false, [⟨WKind.cpu, true, false, true⟩]⟩).procs ≠ [] := by
  decide

/-- Claim C4 (corrected): a process-creation failure inside a wave's spawn loop
stops the ramp — no further spawn is attempted and no further wave starts — and
every already-spawned worker remains tracked and alive in the registry, so a
later `terminate_all` can tear them down.  But the failure is surfaced as an
exception that propagates out of `start_ramp` (only `KeyboardInterrupt` is
caught there): the run ends in `raised`, not in a clean `stopped` transition,
and this path itself neither sets the stop flag nor terminates anything — see
`spawn_failure_not_stopped`.  Concretely, with the fifth process creation
failing: the ramp initiates waves 1 and 2, has appended the four previously
spawned (still alive) handles, and raises. -/
theorem spawn_failure_raises_keeps_workers (env : RampEnv) (pc : Nat) (dry : Bool)
    (p : Proc) (hp : p ∈ (start_ramp env pc dry).reg) :
    p.alive = true ∧
    (start_ramp envFailC4 100 false).outcome = Outcome.raised ∧
    (start_ramp envFailC4 100 false).waves = [1, 2] ∧
    (start_ramp envFailC4 100 false).reg.length = 4 := by
  refine ⟨?_, by decide, by decide, by decide⟩
  obtain ⟨t, ht, ha⟩ := rampAux_reg env pc dry (pc + 1) 1 0 0 [] []
  simp only [start_ramp] at hp
  rw [ht] at hp
  simp only [List.nil_append] at hp
  exact ha p hp

/-- Claim C4 witness: a worker spawned before the failing attempt is still alive
(hence terminable) after the ramp raised. -/
theorem spawn_failure_raises_keeps_workers_w :
    (Proc.mk WKind.cpu true false true).alive = true ∧
    (start_ramp envFailC4 100 false).outcome = Outcome.raised :=
  ⟨(spawn_failure_raises_keeps_workers envFailC4 100 false ⟨WKind.cpu, true, false, true⟩
      (by decide)).1,
    (spawn_failure_raises_keeps_workers envFailC4 100 false ⟨WKind.cpu, true, false, true⟩
      (by decide)).2.1⟩

/-- Claim C4 counterexample: with a spawn failure (attempt index 4 fails, e.g.
OS resource exhaustion during wave 2), `start_ramp` does not transition to the
clean `stopped` state the claim describes, nor does it continue to completion —
the exception escapes the loop (`raised`): the program crashes out of the ramp. -/
theorem spawn_failure_not_stopped :
    (start_ramp envFailC4 100 false).outcome = Outcome.raised ∧
    ¬(start_ramp envFailC4 100 false).outcome = Outcome.stopped ∧
    ¬(start_ramp envFailC4 100 false).outcome = Outcome.completed := by
  decide

/-- If the stop flag is observed set at the very first loop check, the ramp
initiates no wave and spawns nothing. -/
theorem start_ramp_flagged (env : RampEnv) (pc : Nat) (dry : Bool)
    (h0 : env.flagAtWave 0 = true) :
    (start_ramp env pc dry).waves = [] ∧ (start_ramp env pc dry).reg = [] := by
  by_cases hpc : 1 ≤ pc
  · constructor <;> simp [start_ramp, rampAux, hpc, h0]
  · constructor <;> simp [start_ramp, rampAux, hpc]

/-- Claim C10 (confirmed): the stop flag is monotone — no operation of the
program ever clears `terminate_flag` once it is set (there is no
`terminate_flag.clear()` in the source; spawns and `start_ramp` only read it,
`terminate_all` and the signal handler only set it) — and once any shutdown path
has run, every subsequent `start_ramp` call observes the flag at its first loop
check, exits the wave loop immediately, and spawns zero workers, regardless of
its arguments. -/
theorem stop_flag_monotone_ramp_noop (op : SysOp) (s s2 : Sys) (env : RampEnv)
    (pc : Nat) (dry : Bool) (hs : s.flag = true)
    (henv : ∀ w, env.flagAtWave w = true) :
    (applyOp op s).flag = true ∧
    (applyOp SysOp.terminateAll s2).flag = true ∧
    (start_ramp env pc dry).waves = [] ∧
    (start_ramp env pc dry).reg = [] := by
  have h := start_ramp_flagged env pc dry (henv 0)
  refine ⟨?_, rfl, h.1, h.2⟩
  cases op <;> simp [applyOp, terminate_all, terminate_all_ev, hs]

/-- Claim C10 witness: a spawn after the flag is set leaves it set, and a ramp
started with the flag set (here with the default ceiling 16384) performs no wave. -/
theorem stop_flag_monotone_ramp_noop_w :
    (applyOp (SysOp.spawnCpu true 98 true) ⟨true, []⟩).flag = true ∧
    (start_ramp envStopC10 16384 false).waves = [] := by
  have h := stop_flag_monotone_ramp_noop (SysOp.spawnCpu true 98 true) ⟨true, []⟩
    ⟨false, []⟩ envStopC10 16384 false rfl (fun _ => rfl)
  exact ⟨h.1, h.2.2.1⟩

set_option maxRecDepth 4000 in
/-- Claim C6 (code bug): the memory worker's allocation
`['x' * 1024 * 1024] * int(size_in_mb)` holds one shared 1 MiB string plus
`size_in_mb` 8-byte references to it — about 1 MiB total, growing by only
8 bytes per requested megabyte — not the `sizeMB` megabytes the claim (and the
code's own naming, `size_in_mb` with default `DEFAULT_MEM_MB = 128`) intends.
At the default size 128 the held allocation is 1 MiB + 1 KiB, more than 64
times smaller than the intended 128 MiB. -/
theorem memory_worker_held_bytes_bug :
    heapBytes (memory_worker_data 128) = 1024 * 1024 + 8 * 128 ∧
    64 * heapBytes (memory_worker_data 128) < spec_held_bytes 128 ∧
    heapBytes (memory_worker_data 256) - heapBytes (memory_worker_data 128) = 8 * 128 := by
  decide

/-- Claim C7 (confirmed): if the memory worker's allocation fails with
`MemoryError`, the worker returns immediately (zero idle sleeps) and silently —
the `except MemoryError: return` clause means no exception leaves the worker
function, so nothing is propagated to the controller or registry.  The failure
is terminal for that worker alone: its handle is simply observed as not alive by
later liveness probes, while other tracked workers are unaffected. -/
theorem memory_worker_oom_silent (flagAt : Nat → Bool) (fuel : Nat) :
    memory_worker false flagAt fuel = PyOutcome.returned 0 ∧
    (∀ e, memory_worker false flagAt fuel ≠ PyOutcome.raisedExc e) ∧
    anyAlive ⟨true, [⟨WKind.mem, false, false, true⟩]⟩ = false ∧
    anyAlive ⟨true, [⟨WKind.mem, false, false, true⟩, ⟨WKind.cpu, true, false, false⟩]⟩
      = true := by
  refine ⟨rfl, ?_, rfl, rfl⟩
  intro e h
  simp [memory_worker, memory_worker_body] at h

/-- The wait loop checks the flag before every sleep, so once the flag is
visible from check `m` onward the total number of sleeps never exceeds `m`. -/
theorem start_ramp_wait_le (speed : ℚ) (flagAt : Nat → Bool) (m : Nat)
    (hset : ∀ j, m ≤ j → flagAt j = true) :
    ∀ fuel k slept, start_ramp_wait speed flagAt fuel k slept ≤ max k m := by
  intro fuel
  induction fuel with
  | zero => intro k slept; simp [start_ramp_wait]
  | succ f ih =>
    intro k slept
    rw [start_ramp_wait]
    split
    · rename_i hcond
      have hk : k < m := by
        by_contra hk
        push_neg at hk
        have := hset k hk
        rw [hcond.2] at this
        cases this
      have := ih (k + 1) (slept + 1 / 10)
      omega
    · omega

/-- With the flag first observed set at check `m` and enough interval and fuel
left, the wait loop performs exactly `m` sleeps: it exits at the first check
that observes the flag. -/
theorem start_ramp_wait_exact (speed : ℚ) (flagAt : Nat → Bool) (m : Nat)
    (hbefore : ∀ j, j < m → flagAt j = false) (hm : flagAt m = true)
    (hspeed : (m : ℚ) * (1 / 10) < speed) :
    ∀ fuel k, k ≤ m → m < k + fuel →
      start_ramp_wait speed flagAt fuel k ((k : ℚ) * (1 / 10)) = m := by
  intro fuel
  induction fuel with
  | zero => intro k h1 h2; omega
  | succ f ih =>
    intro k h1 h2
    by_cases hk : k < m
    · have hcast : (k : ℚ) < (m : ℚ) := by exact_mod_cast hk
      have hc1 : (k : ℚ) * (1 / 10) < speed := by nlinarith
      rw [start_ramp_wait, if_pos ⟨hc1, hbefore k hk⟩]
      have hstep : (k : ℚ) * (1 / 10) + 1 / 10 = ((k + 1 : Nat) : ℚ) * (1 / 10) := by
        push_cast
        ring
      rw [hstep]
      exact ih (k + 1) (by omega) (by omega)
    · have hkm : k = m := by omega
      subst hkm
      rw [start_ramp_wait, if_neg]
      intro hcond
      rw [hm] at hcond
      cases hcond.2

/-- Claim C8 (confirmed): once the stop signal is set, the between-wave wait
loop returns within one fine-grained slice: the loop re-checks
`terminate_flag.is_set()` after every 0.1 s sleep and exits at the first check
that observes the flag.  If the flag is visible from check `m` on, at most `m`
sleeps happen in total — so at most the one in-flight 0.1 s slice elapses after
the set — and when the flag first becomes visible at check `m` (with interval
and fuel to spare) the loop performs exactly `m` sleeps, not the full
`speed / 0.1`. -/
theorem stop_observed_within_one_slice (speed : ℚ) (flagAt : Nat → Bool) (fuel m : Nat)
    (hset : ∀ j, m ≤ j → flagAt j = true) :
    start_ramp_wait speed flagAt fuel 0 0 ≤ m ∧
    ((∀ j, j < m → flagAt j = false) → (m : ℚ) * (1 / 10) < speed → m < fuel →
      start_ramp_wait speed flagAt fuel 0 0 = m) := by
  constructor
  · simpa using start_ramp_wait_le speed flagAt m hset fuel 0 0
  · intro h1 h2 h3
    have h0 : ((0 : Nat) : ℚ) * (1 / 10) = 0 := by norm_num
    have h := start_ramp_wait_exact speed flagAt m h1 (hset m le_rfl) h2 fuel 0
      (by omega) (by omega)
    rw [h0] at h
    exact h

/-- Claim C8 witness: interval 2 s, flag set during the third sleep (visible
from check 3): the loop sleeps exactly 3 times, not the 20 slices of the full
interval. -/
theorem stop_observed_within_one_slice_w :
    start_ramp_wait 2 (fun j => decide (3 ≤ j)) 25 0 0 ≤ 3 ∧
    start_ramp_wait 2 (fun j => decide (3 ≤ j)) 25 0 0 = 3 := by
  have h := stop_observed_within_one_slice 2 (fun j => decide (3 ≤ j)) 25 3
    (fun j hj => decide_eq_true hj)
  exact ⟨h.1, h.2 (fun j hj => decide_eq_false (by omega)) (by norm_num) (by norm_num)⟩

/-- Every slice the throttled worker executes busy-spins for
`slice * load_percent / 100` and sleeps the (positive, when the load is below
100) remainder of the 0.1 s slice. -/
theorem cpu_worker_throttle_slices (lp : ℚ) (flagAt : Nat → Bool) (hlp : lp < 100) :
    ∀ fuel k s, s ∈ cpu_worker_throttle lp flagAt fuel k →
      s.busyTime = 1 / 10 * lp / 100 ∧
      s.sleepTime = 1 / 10 - 1 / 10 * lp / 100 ∧ 0 < s.sleepTime := by
  have hrem : (0 : ℚ) < 1 / 10 - 1 / 10 * lp / 100 := by linarith
  intro fuel
  induction fuel with
  | zero => intro k s hs; simp [cpu_worker_throttle] at hs
  | succ f ih =>
    intro k s hs
    rw [cpu_worker_throttle] at hs
    by_cases hf : flagAt k = true
    · rw [if_pos hf] at hs
      simp at hs
    · rw [if_neg hf, if_pos hrem] at hs
      rcases List.mem_cons.1 hs with rfl | hs
      · exact ⟨rfl, rfl, hrem⟩
      · exact ih (k + 1) s hs

/-- The throttled worker checks the stop flag at every slice boundary: if the
flag is visible from check `m` onward, no run starting at check `k` executes
more than `m - k` slices. -/
theorem cpu_worker_throttle_len (lp : ℚ) (flagAt : Nat → Bool) (m : Nat)
    (hset : ∀ j, m ≤ j → flagAt j = true) :
    ∀ fuel k, k + (cpu_worker_throttle lp flagAt fuel k).length ≤ max k m := by
  intro fuel
  induction fuel with
  | zero => intro k; simp [cpu_worker_throttle]
  | succ f ih =>
    intro k
    rw [cpu_worker_throttle]
    split
    · simp
    · rename_i hflag
      have hk : k < m := by
        by_contra hk
        push_neg at hk
        exact hflag (hset k hk)
      have := ih (k + 1)
      simp only [List.length_cons]
      omega

/-- Claim C5 (corrected): when the busy-loop strategy is NOT selected
(`use_busy` false) and `loadPercent < 100`, `spawn_cpu_worker` starts the
duty-cycle worker `cpu_worker_throttle`, which per fixed 0.1 s slice busy-spins
for `slice * loadPercent / 100`, then sleeps the (positive) remainder of the
slice, and checks the stop signal at each slice boundary — once the flag is
visible from check `m` on, at most `m` slices run in total.  The claim as
stated — that every `loadPercent < 100` yields the duty-cycle worker — fails,
because `use_busy` overrides the load percentage: see
`busy_default_overrides_throttle`. -/
theorem throttle_duty_cycle (lp : Nat) (flagAt : Nat → Bool) (fuel m : Nat)
    (hlp : lp < 100) (hset : ∀ j, m ≤ j → flagAt j = true) :
    spawn_cpu_worker_target false lp = CpuMode.throttle lp ∧
    (∀ s ∈ cpu_worker_throttle (lp : ℚ) flagAt fuel 0,
      s.busyTime = 1 / 10 * (lp : ℚ) / 100 ∧
      s.sleepTime = 1 / 10 - 1 / 10 * (lp : ℚ) / 100 ∧ 0 < s.sleepTime) ∧
    (cpu_worker_throttle (lp : ℚ) flagAt fuel 0).length ≤ m := by
  have hlpq : ((lp : ℚ)) < 100 := by exact_mod_cast hlp
  refine ⟨?_, fun s hs => cpu_worker_throttle_slices (lp : ℚ) flagAt hlpq fuel 0 s hs, ?_⟩
  · have hne : (lp == 100) = false := by
      simp only [beq_eq_false_iff_ne, ne_eq]
      omega
    simp [spawn_cpu_worker_target, hne]
  · simpa using cpu_worker_throttle_len (lp : ℚ) flagAt m hset fuel 0

/-- Claim C5 witness: at load 50 with the throttled strategy selected, the
target is the duty-cycle worker and a run with the flag visible from check 2
executes at most two slices. -/
theorem throttle_duty_cycle_w :
    spawn_cpu_worker_target false 50 = CpuMode.throttle 50 ∧
    (cpu_worker_throttle ((50 : Nat) : ℚ) (fun j => decide (2 ≤ j)) 10 0).length ≤ 2 := by
  have h := throttle_duty_cycle 50 (fun j => decide (2 ≤ j)) 10 2 (by omega)
    (fun j hj => decide_eq_true hj)
  exact ⟨h.1, h.2.2⟩

/-- Claim C5 counterexample: under the program's own defaults —
`DEFAULT_USE_BUSY_LOOP = True` and `main_menu`'s `load_percent = 98` — the
configured load percentage is strictly below 100, yet `spawn_cpu_worker`
selects the unconditional busy-loop worker, not the duty-cycle loop:
`if use_busy or load_percent == 100` short-circuits on `use_busy`. -/
theorem busy_default_overrides_throttle :
    (98 < 100) ∧
    spawn_cpu_worker_target DEFAULT_USE_BUSY_LOOP 98 = CpuMode.busy ∧
    spawn_cpu_worker_target DEFAULT_USE_BUSY_LOOP 98 ≠ CpuMode.throttle 98 := by
  refine ⟨by omega, rfl, ?_⟩
  intro h
  cases h

/-- When every process creation succeeds, a wave's spawn loop succeeds. -/
theorem spawnWave_isOk (env : RampEnv) (hsp : ∀ a, env.spawnOk a = true) :
    ∀ n a reg, ∃ reg1 a1, spawnWave env n a reg = Except.ok (reg1, a1) := by
  intro n
  induction n with
  | zero => exact fun a reg => ⟨reg, a, rfl⟩
  | succ m ih =>
    intro a reg
    obtain ⟨r1, a1, hr⟩ := ih (a + 2)
      (reg ++ [mkProc WKind.cpu (env.exitsOk a)] ++ [mkProc WKind.mem (env.exitsOk (a + 1))])
    refine ⟨r1, a1, ?_⟩
    rw [spawnWave, spawnPair, if_pos (hsp a), if_pos (hsp (a + 1))]
    exact hr

/-- Peeling the first element off a block of consecutive powers of two. -/
theorem pow_waves_cons (k m : Nat) :
    (List.range (m + 1)).map (fun j => 2 ^ (k + j))
      = 2 ^ k :: (List.range m).map (fun j => 2 ^ (k + 1 + j)) := by
  rw [List.range_succ_eq_map, List.map_cons, List.map_map]
  congr 1
  apply List.map_congr_left
  intro j hj
  simp only [Function.comp_apply]
  congr 1
  omega

/-- With the stop flag never observed and every spawn succeeding, the ramp loop
started at `count = 2 ^ k` with enough fuel runs exactly the waves
`2 ^ k, 2 ^ (k + 1), …, 2 ^ log2 pc` and completes. -/
theorem rampAux_completes (env : RampEnv) (pc : Nat) (hpc : 1 ≤ pc)
    (hflag : ∀ w, env.flagAtWave w = false) (hsp : ∀ a, env.spawnOk a = true) :
    ∀ fuel k w a wacc reg, 2 ^ k ≤ pc → Nat.log 2 pc + 2 ≤ fuel + k →
      (rampAux env pc false fuel (2 ^ k) w a wacc reg).outcome = Outcome.completed ∧
      (rampAux env pc false fuel (2 ^ k) w a wacc reg).waves
        = wacc ++ (List.range (Nat.log 2 pc + 1 - k)).map (fun j => 2 ^ (k + j)) := by
  intro fuel
  induction fuel with
  | zero =>
    intro k w a wacc reg hk hfuel
    have hklog : k ≤ Nat.log 2 pc := (Nat.pow_le_iff_le_log (by norm_num) (by omega)).1 hk
    omega
  | succ f ih =>
    intro k w a wacc reg hk hfuel
    have hklog : k ≤ Nat.log 2 pc := (Nat.pow_le_iff_le_log (by norm_num) (by omega)).1 hk
    obtain ⟨reg1, a1, hsw⟩ := spawnWave_isOk env hsp (2 ^ k) a reg
    have hstep : rampAux env pc false (f + 1) (2 ^ k) w a wacc reg
        = rampAux env pc false f (2 ^ k * 2) (w + 1) a1 (wacc ++ [2 ^ k]) reg1 := by
      simp [rampAux, hk, hflag w, hsw]
    by_cases hnext : 2 ^ (k + 1) ≤ pc
    · have hklog1 : k + 1 ≤ Nat.log 2 pc :=
        (Nat.pow_le_iff_le_log (by norm_num) (by omega)).1 hnext
      have hrec := ih (k + 1) (w + 1) a1 (wacc ++ [2 ^ k]) reg1 hnext (by omega)
      have h2 : (2 : Nat) ^ k * 2 = 2 ^ (k + 1) := by rw [pow_succ]
      rw [hstep, h2]
      refine ⟨hrec.1, ?_⟩
      rw [hrec.2, List.append_assoc]
      congr 1
      have e2 : Nat.log 2 pc + 1 - k = (Nat.log 2 pc - k) + 1 := by omega
      have e3 : Nat.log 2 pc + 1 - (k + 1) = Nat.log 2 pc - k := by omega
      rw [e2, e3, pow_waves_cons, List.singleton_append]
    · have hlogk : Nat.log 2 pc = k := Nat.log_eq_of_pow_le_of_lt_pow hk (by omega)
      obtain ⟨g, rfl⟩ : ∃ g, f = g + 1 := ⟨f - 1, by omega⟩
      have hn2 : ¬2 ^ k * 2 ≤ pc := by
        rw [← pow_succ]
        exact hnext
      rw [hstep]
      have hfin : rampAux env pc false (g + 1) (2 ^ k * 2) (w + 1) a1 (wacc ++ [2 ^ k]) reg1
          = ⟨Outcome.completed, wacc ++ [2 ^ k], reg1⟩ := by
        simp [rampAux, hn2]
      rw [hfin]
      refine ⟨rfl, ?_⟩
      rw [hlogk]
      have h1 : List.range 1 = [0] := rfl
      simp [h1]

/-- Claim C2 (confirmed): for every ceiling `pc ≥ 1`, with the stop signal never
observed set and every process creation succeeding, `start_ramp` initiates
exactly the wave sizes 1, 2, 4, …, 2 ^ log2 pc — the powers of two up to and
including the largest one ≤ pc, never exceeding pc — and ends in the completed
state after exactly log2 pc + 1 waves, when the first doubled count exceeds the
ceiling. -/
theorem ramp_wave_sequence (env : RampEnv) (pc : Nat) (hpc : 1 ≤ pc)
    (hflag : ∀ w, env.flagAtWave w = false) (hsp : ∀ a, env.spawnOk a = true) :
    (start_ramp env pc false).outcome = Outcome.completed ∧
    (start_ramp env pc false).waves
      = (List.range (Nat.log 2 pc + 1)).map (fun k => 2 ^ k) ∧
    (start_ramp env pc false).waves.length = Nat.log 2 pc + 1 ∧
    ∀ n ∈ (start_ramp env pc false).waves, n ≤ pc := by
  have hlog : Nat.log 2 pc < pc := Nat.log_lt_self 2 (by omega)
  have h := rampAux_completes env pc hpc hflag hsp (pc + 1) 0 0 0 [] []
    (by simpa using hpc) (by omega)
  rw [pow_zero] at h
  simp only [Nat.zero_add, Nat.sub_zero, List.nil_append] at h
  simp only [start_ramp]
  refine ⟨h.1, h.2, ?_, ?_⟩
  · rw [h.2]
    simp
  · intro n hn
    rw [h.2] at hn
    simp only [List.mem_map, List.mem_range] at hn
    obtain ⟨j, hj, rfl⟩ := hn
    have hjL : j ≤ Nat.log 2 pc := by omega
    calc (2 : Nat) ^ j ≤ 2 ^ Nat.log 2 pc := Nat.pow_le_pow_right (by omega) hjL
      _ ≤ pc := Nat.pow_log_le_self 2 (by omega)

/-- Claim C2 witness: ceiling 5 — wave sizes 1, 2, 4 (the largest power of two
≤ 5 is 4), ending completed after log2 5 + 1 = 3 waves. -/
theorem ramp_wave_sequence_w :
    (start_ramp envGoodC2 5 false).outcome = Outcome.completed ∧
    (start_ramp envGoodC2 5 false).waves = [1, 2, 4] := by
  have h := ramp_wave_sequence envGoodC2 5 (by omega) (fun _ => rfl) (fun _ => rfl)
  have hl : Nat.log 2 5 = 2 := Nat.log_eq_of_pow_le_of_lt_pow (by norm_num) (by norm_num)
  refine ⟨h.1, ?_⟩
  rw [h.2.1, hl]
  decide
